import Mathlib

/- Verification of the subscription-state algebra of a notifications bot
   server.  Annotation maps on managed resources encode per-trigger
   recipient lists; the server adds and removes subscriptions, computes a
   merge patch between annotation snapshots, and scans resources to list a
   recipient's subscriptions.  This file embeds those operations and proves
   properties about them. -/

/-- An annotation map: the string-to-string metadata of a managed resource,
embedded as an association list with distinct keys. -/
abbrev AnnMap := List (String × String)

/-- A merge patch over annotation keys: a new value, or deletion (none). -/
abbrev PatchMap := List (String × Option String)

/-- Modelled from the spec: the fixed base annotation key for the default,
trigger-agnostic subscription list.  The recipients helper package that
declares this constant is not part of the embedded source. -/
def AnnotationKey : String := "notified.argoproj.io"

/-- First-match lookup in an annotation map (Go map indexing). -/
def lookupKey (k : String) : AnnMap → Option String
  | [] => none
  | kv :: rest => if kv.1 = k then some kv.2 else lookupKey k rest

/-- Go map indexing with the zero value: a missing key reads as "". -/
def lookupD (m : AnnMap) (k : String) : String := (lookupKey k m).getD ""

/-- Go map assignment: replace the key's entry if present, else append. -/
def setKey (k v : String) : AnnMap → AnnMap
  | [] => [(k, v)]
  | kv :: rest => if kv.1 = k then (k, v) :: rest else kv :: setKey k v rest

/-- Go map deletion. -/
def delKey (k : String) : AnnMap → AnnMap
  | [] => []
  | kv :: rest => if kv.1 = k then delKey k rest else kv :: delKey k rest

/-- The keys of the list-encoded map are distinct, as in a Go map. -/
def NodupKeys (m : AnnMap) : Prop := (m.map Prod.fst).Nodup

/-- Split a character list at every comma (Go strings.Split on ","). -/
def splitComma : List Char → List (List Char)
  | [] => [[]]
  | c :: cs =>
    if c = ',' then [] :: splitComma cs
    else
      match splitComma cs with
      | [] => [[c]]
      | t :: ts => (c :: t) :: ts

/-- Interleave commas between the pieces (Go strings.Join with ","). -/
def joinCommaChars : List (List Char) → List Char
  | [] => []
  | [x] => x
  | x :: xs => x ++ ',' :: joinCommaChars xs

/-- Join recipient strings with commas. -/
def joinComma (xs : List String) : String := ⟨joinCommaChars (xs.map String.data)⟩

/-- Modelled from the spec: the recipients codec decodes an annotation value
by splitting it on commas, an empty value yielding the empty sequence.  The
recipients helper package is not part of the embedded source. -/
def ParseRecipients (s : String) : List String :=
  if s = "" then [] else (splitComma s.data).map (fun l => ⟨l⟩)

/-- Index of the first occurrence of item, or -1 (findStringIndex). -/
def findStringIndex : List String → String → Int
  | [], _ => -1
  | x :: xs, item =>
    if x = item then 0
    else if findStringIndex xs item < 0 then -1 else findStringIndex xs item + 1

/-- Build a copy of the map (value-level identity in the pure embedding;
the source copies to avoid aliasing the caller's map). -/
def copyStringMap (m : AnnMap) : AnnMap := m

/-- addSubscription from the source: append the recipient to the trigger's
annotation key unless it is already listed there. -/
def addSubscription (recipient trigger : String) (anns : AnnMap) : AnnMap :=
  let anns2 := copyStringMap anns
  let key := if trigger ≠ "" then trigger ++ "." ++ AnnotationKey else AnnotationKey
  let existingRecipients := ParseRecipients (lookupD anns2 key)
  if findStringIndex existingRecipients recipient < 0 then
    setKey key (joinComma (existingRecipients ++ [recipient])) anns2
  else
    anns2

/-- annotationsPatch from the source: a set entry for every key of new whose
value differs from old's value at that key (a missing key reading as ""),
and a delete entry for every key of old absent from new. -/
def annotationsPatch (old new : AnnMap) : PatchMap :=
  ((new.filter (fun kv => kv.2 != lookupD old kv.1)).map (fun kv => (kv.1, some kv.2)))
    ++ ((old.filter (fun kv => (lookupKey kv.1 new).isNone)).map
        (fun kv => (kv.1, (none : Option String))))

/-- A key that encodes a subscription list: the base key itself or any
trigger-scoped "<trigger>.<base>" key. -/
def isSubscriptionKey (k : String) : Bool :=
  k == AnnotationKey || List.isSuffixOf ("." ++ AnnotationKey).data k.data

/-- Modelled from the spec: the keys of the map that encode a subscription
list and match the trigger filter — every subscription key when the trigger
is empty, else only that trigger's key.  The recipients helper package is
not part of the embedded source. -/
def GetAnnotationKeys (anns : AnnMap) (trigger : String) : List String :=
  (anns.map Prod.fst).filter (fun k =>
    if trigger = "" then isSubscriptionKey k
    else k == trigger ++ "." ++ AnnotationKey)

/-- One iteration of removeSubscription's loop over matching keys: drop the
first occurrence of the recipient, rewriting the key or deleting it when the
shortened list is empty. -/
def stepRem (recipient : String) (acc : AnnMap) (k : String) : AnnMap :=
  let existingRecipients := ParseRecipients (lookupD acc k)
  let index := findStringIndex existingRecipients recipient
  if index > -1 then
    let newRecipients :=
      existingRecipients.take index.toNat ++ existingRecipients.drop (index.toNat + 1)
    if newRecipients.length > 0 then setKey k (joinComma newRecipients) acc
    else delKey k acc
  else acc

/-- removeSubscription from the source. -/
def removeSubscription (recipient trigger : String) (anns : AnnMap) : AnnMap :=
  (GetAnnotationKeys (copyStringMap anns) trigger).foldl (stepRem recipient) (copyStringMap anns)

/-- A notification destination: the service and address parts of a
recipient, used for subscription matching irrespective of template. -/
structure Destination where
  service : String
  address : String
deriving DecidableEq, Repr

/-- Split a character list at the first occurrence of c, when present. -/
def breakAtChar (c : Char) : List Char → Option (List Char × List Char)
  | [] => none
  | x :: xs =>
    if x = c then some ([], xs)
    else
      match breakAtChar c xs with
      | none => none
      | some (l, r) => some (x :: l, r)

/-- Modelled from the spec: split a recipient of the form
"service:address?template" into its destination and optional template
override, failing on a malformed recipient.  The recipients helper package
is not part of the embedded source. -/
def ParseDestinationAndTemplate (recipient : String) :
    Except String (Destination × String) :=
  let parts : List Char × List Char :=
    match breakAtChar '?' recipient.data with
    | some (b, t) => (b, t)
    | none => (recipient.data, [])
  match breakAtChar ':' parts.1 with
  | none => .error (recipient ++ " is not a valid recipient")
  | some (svc, addr) => .ok (⟨⟨svc⟩, ⟨addr⟩⟩, ⟨parts.2⟩)

/-- Parse every recipient in the list into its destination, propagating the
first parse failure. -/
def collectDest : List String → Except String (List Destination)
  | [] => .ok []
  | r :: rs =>
    match ParseDestinationAndTemplate r with
    | .error e => .error e
    | .ok (d, _) =>
      match collectDest rs with
      | .error e => .error e
      | .ok ds => .ok (d :: ds)

/-- Modelled from the spec: the destination matcher scans every subscription
key of the map, decodes its recipient list and parses each listed recipient,
failing on the first unparsable one.  The recipients helper package is not
part of the embedded source. -/
def GetDestinations (anns : AnnMap) : Except String (List Destination) :=
  collectDest ((anns.filter (fun kv => isSubscriptionKey kv.1)).flatMap
    (fun kv => ParseRecipients kv.2))

/-- A managed resource object as the server sees it: its name, namespace and
annotation map. -/
structure Obj where
  name : String
  ns : String
  anns : AnnMap
deriving DecidableEq, Repr

/-- A network operation issued against one of the two collections. -/
inductive NetOp where
  | getApp (name : String)
  | getProj (name : String)
  | patchApp (name : String) (patch : PatchMap)
  | patchProj (name : String) (patch : PatchMap)
  | listApps
  | listProjs
deriving DecidableEq, Repr

/-- The remote collaborator: how each get, patch and list call would answer. -/
structure World where
  getApp : String → Except String Obj
  getProj : String → Except String Obj
  patchApp : String → PatchMap → Except String Unit
  patchProj : String → PatchMap → Except String Unit
  listApps : Except String (List Obj)
  listProjs : Except String (List Obj)

/-- The update request payload: target application or project, and trigger. -/
structure UpdateSubscription where
  App : String
  Project : String
  Trigger : String
deriving DecidableEq, Repr

/-- Which of the two resource collections an update targets. -/
inductive TargetKind where
  | app
  | project
deriving DecidableEq, Repr

/-- The target-selection switch at the head of updateSubscription: the
application name takes priority, then the project name, else the
missing-target error. -/
def selectTarget (opts : UpdateSubscription) : Except String (TargetKind × String) :=
  if opts.App ≠ "" then .ok (.app, opts.App)
  else if opts.Project ≠ "" then .ok (.project, opts.Project)
  else .error "either application or project name must be specified"

/-- Issue a get against the selected collection. -/
def doGet (w : World) : TargetKind → String → Except String Obj
  | .app, n => w.getApp n
  | .project, n => w.getProj n

/-- Issue a patch against the selected collection. -/
def doPatch (w : World) : TargetKind → String → PatchMap → Except String Unit
  | .app, n, p => w.patchApp n p
  | .project, n, p => w.patchProj n p

/-- The trace record of a get against the selected collection. -/
def getOp : TargetKind → String → NetOp
  | .app, n => .getApp n
  | .project, n => .getProj n

/-- The trace record of a patch against the selected collection. -/
def patchOp : TargetKind → String → PatchMap → NetOp
  | .app, n, p => .patchApp n p
  | .project, n, p => .patchProj n p

/-- updateSubscription from the source: select the target collection, fetch
the object, mutate its annotations with add or remove, and issue a merge
patch only when the diff against the pre-fetch snapshot is non-empty.  The
second component is the trace of network operations issued. -/
def updateSubscription (w : World) (recipient : String) (subscribe : Bool)
    (opts : UpdateSubscription) : Except String String × List NetOp :=
  match selectTarget opts with
  | .error e => (.error e, [])
  | .ok (tgt, name) =>
    match doGet w tgt name with
    | .error e => (.error e, [getOp tgt name])
    | .ok obj =>
      let oldAnns := copyStringMap obj.anns
      let newAnns :=
        if subscribe then addSubscription recipient opts.Trigger obj.anns
        else removeSubscription recipient opts.Trigger obj.anns
      let patch := annotationsPatch oldAnns newAnns
      if patch.length > 0 then
        match doPatch w tgt name patch with
        | .error e => (.error e, [getOp tgt name, patchOp tgt name patch])
        | .ok _ => (.ok "subscription updated", [getOp tgt name, patchOp tgt name patch])
      else
        (.ok "subscription updated", [getOp tgt name])

/-- The scan loop of listSubscriptions over one collection: compute each
object's destinations, abort on the first failure, and collect the
namespace/name of every object subscribed to dest. -/
def scanMatching (dest : Destination) : List Obj → Except String (List String)
  | [] => .ok []
  | it :: rest =>
    match GetDestinations it.anns with
    | .error e => .error e
    | .ok allDest =>
      match scanMatching dest rest with
      | .error e => .error e
      | .ok tail =>
        if dest ∈ allDest then .ok ((it.ns ++ "/" ++ it.name) :: tail)
        else .ok tail

/-- The response formatting at the end of listSubscriptions. -/
def formatListResponse (recipient : String) (apps appProjs : List String) : String :=
  if apps.length > 0 ∨ appProjs.length > 0 then
    let r0 := "The " ++ recipient ++ " is subscribed to " ++ toString apps.length
      ++ " applications and " ++ toString appProjs.length ++ " projects."
    let r1 :=
      if apps.length > 0 then
        r0 ++ "\nApplications: " ++ String.intercalate ", " apps ++ "."
      else r0
    if appProjs.length > 0 then
      r1 ++ "\nProjects: " ++ String.intercalate ", " appProjs ++ "."
    else r1
  else "The " ++ recipient ++ " has no subscriptions."

/-- listSubscriptions from the source: parse the recipient's destination,
list both collections, scan each object's annotations, and format the
summary.  The second component is the trace of network operations issued. -/
def listSubscriptions (w : World) (recipient : String) :
    Except String String × List NetOp :=
  match ParseDestinationAndTemplate recipient with
  | .error e => (.error e, [])
  | .ok (dest, _) =>
    match w.listApps with
    | .error e => (.error e, [.listApps])
    | .ok appItems =>
      match scanMatching dest appItems with
      | .error e => (.error e, [.listApps])
      | .ok apps =>
        match w.listProjs with
        | .error e => (.error e, [.listApps, .listProjs])
        | .ok projItems =>
          match scanMatching dest projItems with
          | .error e => (.error e, [.listApps, .listProjs])
          | .ok appProjs =>
            (.ok (formatListResponse recipient apps appProjs), [.listApps, .listProjs])

/-- An inbound command: at most one of the three variants is expected to be
set (the source emulates a tagged union with nil-able fields). -/
structure Command where
  ListSubscriptions : Option Unit
  Subscribe : Option UpdateSubscription
  Unsubscribe : Option UpdateSubscription
  Recipient : String

/-- execute from the source: dispatch on the first set variant, in the order
list, subscribe, unsubscribe; fail when none is set. -/
def execute (w : World) (cmd : Command) : Except String String × List NetOp :=
  match cmd.ListSubscriptions with
  | some _ => listSubscriptions w cmd.Recipient
  | none =>
    match cmd.Subscribe with
    | some u => updateSubscription w cmd.Recipient true u
    | none =>
      match cmd.Unsubscribe with
      | some u => updateSubscription w cmd.Recipient false u
      | none => (.error "unknown command", [])

/-- The no-duplicate invariant: every key's decoded recipient list is free
of duplicates. -/
def NoDupInvariant (m : AnnMap) : Prop :=
  ∀ k : String, (ParseRecipients (lookupD m k)).Nodup

/-- The annotation key the spec says a trigger maps to: the base key for the
empty trigger, else the trigger, a dot, then the base key. -/
def subKeyFor (t : String) : String :=
  if t = "" then AnnotationKey else t ++ "." ++ AnnotationKey

/-- A collaborator used by the concrete witnesses: every get answers with an
object already subscribed by "r", patches succeed, lists are empty. -/
def wNoop : World :=
  ⟨fun n => .ok ⟨n, "ns", [(AnnotationKey, "r")]⟩,
   fun n => .ok ⟨n, "ns", [(AnnotationKey, "r")]⟩,
   fun _ _ => .ok (),
   fun _ _ => .ok (),
   .ok [],
   .ok []⟩

/-- A collaborator whose single application carries an unparsable recipient. -/
def wBad : World :=
  ⟨fun _ => .error "not found",
   fun _ => .error "not found",
   fun _ _ => .ok (),
   fun _ _ => .ok (),
   .ok [⟨"a", "ns", [(AnnotationKey, "bad")]⟩],
   .ok []⟩

theorem lookupKey_setKey_self (k v : String) (m : AnnMap) :
    lookupKey k (setKey k v m) = some v := by
  induction m with
  | nil => simp [setKey, lookupKey]
  | cons kv rest ih =>
    by_cases h : kv.1 = k
    · simp [setKey, h, lookupKey]
    · simp [setKey, h, lookupKey, ih]

theorem lookupKey_setKey_ne (k v k' : String) (m : AnnMap) (h : k' ≠ k) :
    lookupKey k' (setKey k v m) = lookupKey k' m := by
  have h2 : ¬ k = k' := fun hc => h hc.symm
  induction m with
  | nil => simp [setKey, lookupKey, h2]
  | cons kv rest ih =>
    by_cases hk : kv.1 = k
    · simp [setKey, hk, lookupKey, h2]
    · simp [setKey, hk, lookupKey, ih]

theorem setKey_eq_of_lookup (k v : String) (m : AnnMap)
    (h : lookupKey k m = some v) : setKey k v m = m := by
  induction m with
  | nil => simp [lookupKey] at h
  | cons kv rest ih =>
    obtain ⟨k1, v1⟩ := kv
    by_cases hk : k1 = k
    · subst hk
      simp [lookupKey] at h
      simp [setKey, h]
    · simp only [lookupKey] at h
      rw [if_neg (by simpa using hk)] at h
      simp [setKey, hk, ih h]

theorem lookupKey_delKey_self (k : String) (m : AnnMap) :
    lookupKey k (delKey k m) = none := by
  induction m with
  | nil => simp [delKey, lookupKey]
  | cons kv rest ih =>
    by_cases h : kv.1 = k
    · simp [delKey, h, ih]
    · simp [delKey, h, lookupKey, ih]

theorem lookupKey_delKey_ne (k k' : String) (m : AnnMap) (h : k' ≠ k) :
    lookupKey k' (delKey k m) = lookupKey k' m := by
  induction m with
  | nil => simp [delKey]
  | cons kv rest ih =>
    by_cases hk : kv.1 = k
    · have hne : ¬ kv.1 = k' := by rw [hk]; exact fun hc => h hc.symm
      rw [delKey, if_pos hk, ih, lookupKey, if_neg hne]
    · rw [delKey, if_neg hk, lookupKey, lookupKey, ih]

theorem mem_keys_setKey (k v x : String) (m : AnnMap)
    (h : x ∈ (setKey k v m).map Prod.fst) : x = k ∨ x ∈ m.map Prod.fst := by
  induction m with
  | nil => simp [setKey] at h; exact Or.inl h
  | cons kv rest ih =>
    by_cases hk : kv.1 = k
    · simp only [setKey, hk, if_true, List.map_cons, List.mem_cons] at h
      rcases h with h | h
      · exact Or.inl h
      · exact Or.inr (by simp [h])
    · simp only [setKey, hk, if_false, List.map_cons, List.mem_cons] at h
      rcases h with h | h
      · exact Or.inr (by simp [h])
      · rcases ih h with h' | h'
        · exact Or.inl h'
        · exact Or.inr (by simp [h'])

theorem nodupKeys_setKey (k v : String) (m : AnnMap) (h : NodupKeys m) :
    NodupKeys (setKey k v m) := by
  induction m with
  | nil => simp [NodupKeys, setKey]
  | cons kv rest ih =>
    rw [NodupKeys, List.map_cons, List.nodup_cons] at h
    by_cases hk : kv.1 = k
    · rw [NodupKeys, setKey, if_pos hk, List.map_cons, List.nodup_cons]
      exact ⟨hk ▸ h.1, h.2⟩
    · rw [NodupKeys, setKey, if_neg hk, List.map_cons, List.nodup_cons]
      refine ⟨fun hc => ?_, ih h.2⟩
      rcases mem_keys_setKey k v kv.1 rest hc with h' | h'
      · exact hk h'
      · exact h.1 h'

theorem lookupKey_of_mem (k v : String) (m : AnnMap) (hn : NodupKeys m)
    (h : (k, v) ∈ m) : lookupKey k m = some v := by
  induction m with
  | nil => simp at h
  | cons kv rest ih =>
    rw [NodupKeys, List.map_cons, List.nodup_cons] at hn
    rcases List.mem_cons.mp h with h' | h'
    · rw [lookupKey, ← h']
      simp
    · have hne : ¬ kv.1 = k := by
        intro hc
        exact hn.1 (hc ▸ (by simpa using List.mem_map_of_mem Prod.fst h'))
      rw [lookupKey, if_neg hne]
      exact ih hn.2 h'

theorem mem_of_lookupKey (k v : String) (m : AnnMap)
    (h : lookupKey k m = some v) : (k, v) ∈ m := by
  induction m with
  | nil => simp [lookupKey] at h
  | cons kv rest ih =>
    by_cases hk : kv.1 = k
    · rw [lookupKey, if_pos hk] at h
      obtain ⟨k1, v1⟩ := kv
      simp only at hk
      simp only [Option.some.injEq] at h
      simp [hk, h]
    · rw [lookupKey, if_neg hk] at h
      exact List.mem_cons_of_mem _ (ih h)

theorem lookupKey_eq_none_iff (k : String) (m : AnnMap) :
    lookupKey k m = none ↔ k ∉ m.map Prod.fst := by
  induction m with
  | nil => simp [lookupKey]
  | cons kv rest ih =>
    by_cases hk : kv.1 = k
    · simp [lookupKey, hk]
    · rw [lookupKey, if_neg hk, List.map_cons]
      simp only [List.mem_cons, not_or]
      constructor
      · intro h
        exact ⟨fun hc => hk hc.symm, ih.mp h⟩
      · intro h
        exact ih.mpr h.2

theorem findStringIndex_neg_iff (xs : List String) (x : String) :
    findStringIndex xs x < 0 ↔ x ∉ xs := by
  induction xs with
  | nil => simp [findStringIndex]
  | cons y ys ih =>
    by_cases h : y = x
    · simp [findStringIndex, h]
    · by_cases hf : findStringIndex ys x < 0
      · rw [findStringIndex, if_neg h, if_pos hf]
        simp only [List.mem_cons]
        constructor
        · intro _ hc
          rcases hc with hc | hc
          · exact h hc.symm
          · exact (ih.mp hf) hc
        · intro _; omega
      · rw [findStringIndex, if_neg h, if_neg hf]
        simp only [List.mem_cons]
        constructor
        · intro hc; omega
        · intro hc
          exact absurd (fun hm => hc (Or.inr hm)) (fun hnm => hf (ih.mpr hnm))

theorem splitComma_ne_nil (s : List Char) : splitComma s ≠ [] := by
  induction s with
  | nil => simp [splitComma]
  | cons c cs ih =>
    rw [splitComma]
    by_cases h : c = ','
    · simp [h]
    · rw [if_neg h]
      cases hs : splitComma cs with
      | nil => simp
      | cons t ts => simp

theorem comma_notin_splitComma (s : List Char) :
    ∀ p ∈ splitComma s, ',' ∉ p := by
  induction s with
  | nil =>
    intro p hp
    simp [splitComma] at hp
    simp [hp]
  | cons c cs ih =>
    intro p hp
    rw [splitComma] at hp
    by_cases h : c = ','
    · rw [if_pos h] at hp
      rcases List.mem_cons.mp hp with h' | h'
      · simp [h']
      · exact ih p h'
    · rw [if_neg h] at hp
      cases hs : splitComma cs with
      | nil => exact absurd hs (splitComma_ne_nil cs)
      | cons t ts =>
        rw [hs] at hp
        rcases List.mem_cons.mp hp with h' | h'
        · subst h'
          intro hmem
          rcases List.mem_cons.mp hmem with hc' | hc'
          · exact h hc'.symm
          · exact ih t (by rw [hs]; exact List.mem_cons_self t ts) hc'
        · exact ih p (by rw [hs]; exact List.mem_cons_of_mem t h')

theorem splitComma_of_no_comma (l : List Char) (h : ',' ∉ l) :
    splitComma l = [l] := by
  induction l with
  | nil => simp [splitComma]
  | cons c cs ih =>
    have hc : ¬ c = ',' := fun hc2 => h (by simp [hc2])
    have hcs : ',' ∉ cs := fun hm => h (List.mem_cons_of_mem c hm)
    rw [splitComma, if_neg hc, ih hcs]

theorem splitComma_append_comma (x rest : List Char) (h : ',' ∉ x) :
    splitComma (x ++ ',' :: rest) = x :: splitComma rest := by
  induction x with
  | nil => simp [splitComma]
  | cons c cs ih =>
    have hc : ¬ c = ',' := fun hc2 => h (by simp [hc2])
    have hcs : ',' ∉ cs := fun hm => h (List.mem_cons_of_mem c hm)
    rw [List.cons_append, splitComma, if_neg hc, ih hcs]

theorem splitComma_joinCommaChars (xs : List (List Char)) (h0 : xs ≠ [])
    (hc : ∀ p ∈ xs, ',' ∉ p) : splitComma (joinCommaChars xs) = xs := by
  induction xs with
  | nil => exact absurd rfl h0
  | cons x xs2 ih =>
    cases xs2 with
    | nil => exact splitComma_of_no_comma x (hc x (List.mem_cons_self x []))
    | cons y ys =>
      have hrec := ih (List.cons_ne_nil y ys) (fun p hp => hc p (List.mem_cons_of_mem x hp))
      rw [joinCommaChars, splitComma_append_comma x _ (hc x (List.mem_cons_self _ _)), hrec]
      exact fun h => List.noConfusion h

theorem joinComma_singleton (r : String) : joinComma [r] = r := rfl

theorem joinComma_cons_cons_ne (x y : String) (rest : List String) :
    joinComma (x :: y :: rest) ≠ "" := by
  intro h
  have h2 : (joinComma (x :: y :: rest)).data = ("" : String).data := by rw [h]
  have h3 : x.data ++ ',' :: joinCommaChars (y.data :: rest.map String.data) = [] := h2
  rcases List.append_eq_nil.mp h3 with ⟨_, h4⟩
  exact List.cons_ne_nil _ _ h4

theorem parse_comma_free (s : String) : ∀ p ∈ ParseRecipients s, ',' ∉ p.data := by
  intro p hp
  rw [ParseRecipients] at hp
  by_cases h : s = ""
  · rw [if_pos h] at hp
    simp at hp
  · rw [if_neg h] at hp
    rcases List.mem_map.mp hp with ⟨l, hl, hlp⟩
    have := comma_notin_splitComma s.data l hl
    rw [← hlp]
    exact this

theorem map_mk_map_data (xs : List String) :
    (xs.map String.data).map (fun l => (⟨l⟩ : String)) = xs := by
  induction xs with
  | nil => rfl
  | cons x xs2 ih =>
    rw [List.map_cons, List.map_cons, ih]

theorem parse_joinComma (xs : List String) (h0 : xs ≠ [])
    (hc : ∀ p ∈ xs, ',' ∉ p.data) (hne : joinComma xs ≠ "") :
    ParseRecipients (joinComma xs) = xs := by
  rw [ParseRecipients, if_neg hne]
  have hd : (joinComma xs).data = joinCommaChars (xs.map String.data) := rfl
  rw [hd, splitComma_joinCommaChars (xs.map String.data) (by simpa using h0)
    (by intro p hp; rcases List.mem_map.mp hp with ⟨q, hq, hqp⟩; rw [← hqp]; exact hc q hq)]
  exact map_mk_map_data xs

theorem addSubscription_eq (r t : String) (m : AnnMap) :
    addSubscription r t m =
      if r ∈ ParseRecipients (lookupD m (subKeyFor t)) then m
      else setKey (subKeyFor t)
        (joinComma (ParseRecipients (lookupD m (subKeyFor t)) ++ [r])) m := by
  have hkey : (if t ≠ "" then t ++ "." ++ AnnotationKey else AnnotationKey) = subKeyFor t := by
    rw [subKeyFor]
    by_cases h : t = "" <;> simp [h]
  simp only [addSubscription, copyStringMap, hkey]
  by_cases hmem : r ∈ ParseRecipients (lookupD m (subKeyFor t))
  · rw [if_neg (fun hlt => (findStringIndex_neg_iff _ _).mp hlt hmem), if_pos hmem]
  · rw [if_pos ((findStringIndex_neg_iff _ _).mpr hmem), if_neg hmem]

theorem annotationsPatch_self (m : AnnMap) (h : NodupKeys m) :
    annotationsPatch m m = [] := by
  rw [annotationsPatch]
  have h1 : m.filter (fun kv => kv.2 != lookupD m kv.1) = [] := by
    rw [List.filter_eq_nil_iff]
    intro kv hkv
    have hl : lookupKey kv.1 m = some kv.2 := lookupKey_of_mem kv.1 kv.2 m h hkv
    simp [lookupD, hl]
  have h2 : m.filter (fun kv => (lookupKey kv.1 m).isNone) = [] := by
    rw [List.filter_eq_nil_iff]
    intro kv hkv
    have hl : lookupKey kv.1 m = some kv.2 := lookupKey_of_mem kv.1 kv.2 m h hkv
    simp [hl]
  rw [h1, h2]
  rfl

theorem mem_patch_some_iff (old new : AnnMap) (hn : NodupKeys new) (k v : String) :
    (k, some v) ∈ annotationsPatch old new ↔
      (lookupKey k new = some v ∧ v ≠ lookupD old k) := by
  rw [annotationsPatch, List.mem_append]
  constructor
  · intro h
    rcases h with h | h
    · rcases List.mem_map.mp h with ⟨⟨k1, v1⟩, hkv, heq⟩
      rw [List.mem_filter] at hkv
      obtain ⟨hmem, hbne⟩ := hkv
      have hk : k1 = k := by simpa using congrArg Prod.fst heq
      have hv : v1 = v := by simpa using congrArg Prod.snd heq
      subst hk; subst hv
      refine ⟨lookupKey_of_mem k1 v1 new hn hmem, ?_⟩
      simpa [bne_iff_ne] using hbne
    · rcases List.mem_map.mp h with ⟨kv, _, heq⟩
      exfalso
      simpa using congrArg Prod.snd heq
  · rintro ⟨h1, h2⟩
    left
    apply List.mem_map.mpr
    refine ⟨(k, v), ?_, rfl⟩
    rw [List.mem_filter]
    exact ⟨mem_of_lookupKey k v new h1, by simpa [bne_iff_ne] using h2⟩

theorem mem_patch_none_iff (old new : AnnMap) (ho : NodupKeys old) (k : String) :
    (k, (none : Option String)) ∈ annotationsPatch old new ↔
      ((lookupKey k old).isSome ∧ lookupKey k new = none) := by
  rw [annotationsPatch, List.mem_append]
  constructor
  · intro h
    rcases h with h | h
    · rcases List.mem_map.mp h with ⟨kv, _, heq⟩
      exfalso
      simpa using congrArg Prod.snd heq
    · rcases List.mem_map.mp h with ⟨⟨k1, v1⟩, hkv, heq⟩
      rw [List.mem_filter] at hkv
      have hk : k1 = k := by simpa using congrArg Prod.fst heq
      subst hk
      obtain ⟨hmem, hnone⟩ := hkv
      refine ⟨?_, by simpa using hnone⟩
      rw [lookupKey_of_mem k1 v1 old ho hmem]
      rfl
  · rintro ⟨h1, h2⟩
    right
    apply List.mem_map.mpr
    obtain ⟨v1, hv1⟩ : ∃ v1, lookupKey k old = some v1 := Option.isSome_iff_exists.mp h1
    refine ⟨(k, v1), ?_, rfl⟩
    rw [List.mem_filter]
    exact ⟨mem_of_lookupKey k v1 old hv1, by simp [h2]⟩

theorem joinComma_append_ne_empty (ex : List String) (r : String)
    (hdeg : ¬ (ex = [] ∧ r = "")) : joinComma (ex ++ [r]) ≠ "" := by
  rcases ex with _ | ⟨x, ex2⟩
  · have hr : r ≠ "" := fun hr0 => hdeg ⟨rfl, hr0⟩
    simpa [joinComma_singleton] using hr
  · rcases ex2 with _ | ⟨y, ys⟩
    · exact joinComma_cons_cons_ne x r []
    · exact joinComma_cons_cons_ne x y (ys ++ [r])

theorem parse_append_one (s : String) (r : String) (hc : ',' ∉ r.data)
    (hdeg : ¬ (ParseRecipients s = [] ∧ r = "")) :
    ParseRecipients (joinComma (ParseRecipients s ++ [r])) = ParseRecipients s ++ [r] := by
  apply parse_joinComma
  · simp
  · intro p hp
    rcases List.mem_append.mp hp with hp | hp
    · exact parse_comma_free s p hp
    · simp at hp
      rw [hp]
      exact hc
  · exact joinComma_append_ne_empty _ _ hdeg

theorem add_add_eq_add (r t : String) (m : AnnMap) (hc : ',' ∉ r.data) :
    addSubscription r t (addSubscription r t m) = addSubscription r t m := by
  by_cases hmem : r ∈ ParseRecipients (lookupD m (subKeyFor t))
  · have h1 : addSubscription r t m = m := by rw [addSubscription_eq, if_pos hmem]
    rw [h1]
    exact h1
  · have h1 : addSubscription r t m
        = setKey (subKeyFor t)
            (joinComma (ParseRecipients (lookupD m (subKeyFor t)) ++ [r])) m := by
      rw [addSubscription_eq, if_neg hmem]
    have hlook : lookupKey (subKeyFor t) (addSubscription r t m)
        = some (joinComma (ParseRecipients (lookupD m (subKeyFor t)) ++ [r])) := by
      rw [h1]
      exact lookupKey_setKey_self _ _ _
    have hD : lookupD (addSubscription r t m) (subKeyFor t)
        = joinComma (ParseRecipients (lookupD m (subKeyFor t)) ++ [r]) := by
      rw [lookupD, hlook]
      rfl
    by_cases hdeg : ParseRecipients (lookupD m (subKeyFor t)) = [] ∧ r = ""
    · obtain ⟨he, hr⟩ := hdeg
      have hparse : ParseRecipients (lookupD (addSubscription r t m) (subKeyFor t)) = [] := by
        rw [hD, he, hr]
        rfl
      rw [addSubscription_eq r t (addSubscription r t m), hparse, if_neg (by simp)]
      have hjoin : joinComma (([] : List String) ++ [r])
          = joinComma (ParseRecipients (lookupD m (subKeyFor t)) ++ [r]) := by
        rw [he]
      rw [hjoin]
      exact setKey_eq_of_lookup _ _ _ hlook
    · have hparse : ParseRecipients (lookupD (addSubscription r t m) (subKeyFor t))
          = ParseRecipients (lookupD m (subKeyFor t)) ++ [r] := by
        rw [hD]
        exact parse_append_one _ r hc hdeg
      have hmem2 : r ∈ ParseRecipients (lookupD (addSubscription r t m) (subKeyFor t)) := by
        rw [hparse]
        simp
      rw [addSubscription_eq r t (addSubscription r t m), if_pos hmem2]

theorem nodupKeys_addSubscription (r t : String) (m : AnnMap) (h : NodupKeys m) :
    NodupKeys (addSubscription r t m) := by
  rw [addSubscription_eq]
  by_cases hmem : r ∈ ParseRecipients (lookupD m (subKeyFor t))
  · rwa [if_pos hmem]
  · rw [if_neg hmem]
    exact nodupKeys_setKey _ _ m h

/-- C1 counterexample: the key "k" is present in new (with value "") and
absent from old, so the claimed patch must contain an entry for it, yet
annotationsPatch of those two maps is empty. -/
theorem c1_counterexample :
    lookupKey "k" ([] : AnnMap) = none ∧ lookupKey "k" [("k", "")] = some ""
      ∧ annotationsPatch [] [("k", "")] = [] := by
  decide

/-- C1 (amended): over maps with distinct keys, the patch has a set-to-v
entry for k exactly when new maps k to v and v differs from old's value at k
read with the Go zero-value convention (a key absent from old reads as "",
so a key of new with value "" absent from old yields no entry); it has a
delete entry for k exactly when k is in old and absent from new; and the
patch of a map against itself is empty. -/
theorem c1_annotationsPatch_characterization :
    ∀ (old new : AnnMap), NodupKeys old → NodupKeys new →
      ((∀ k v, (k, some v) ∈ annotationsPatch old new ↔
          (lookupKey k new = some v ∧ v ≠ lookupD old k)) ∧
       (∀ k, (k, (none : Option String)) ∈ annotationsPatch old new ↔
          ((lookupKey k old).isSome ∧ lookupKey k new = none)) ∧
       annotationsPatch old old = []) :=
  fun old new ho hn =>
    ⟨fun k v => mem_patch_some_iff old new hn k v,
     fun k => mem_patch_none_iff old new ho k,
     annotationsPatch_self old ho⟩

theorem c1_witness :
    ((("a", some "2") ∈ annotationsPatch [("a", "1")] [("a", "2")]) ↔
      (lookupKey "a" [("a", "2")] = some "2" ∧ "2" ≠ lookupD [("a", "1")] "a"))
    ∧ annotationsPatch [("a", "1")] [("a", "1")] = [] :=
  ⟨(c1_annotationsPatch_characterization [("a", "1")] [("a", "2")]
      (by rw [NodupKeys]; decide) (by rw [NodupKeys]; decide)).1 "a" "2",
   (c1_annotationsPatch_characterization [("a", "1")] [("a", "1")]
      (by rw [NodupKeys]; decide) (by rw [NodupKeys]; decide)).2.2⟩

/-- C2 counterexample: for the comma-carrying recipient "a,b", adding twice
differs from adding once and the diff between the two states is non-empty. -/
theorem c2_counterexample :
    addSubscription "a,b" "" (addSubscription "a,b" "" []) ≠ addSubscription "a,b" "" []
    ∧ annotationsPatch (addSubscription "a,b" "" [])
        (addSubscription "a,b" "" (addSubscription "a,b" "" [])) ≠ [] := by
  decide

/-- C2 (amended): for every map with distinct keys and every recipient
containing no comma, addSubscription is idempotent and the diff between the
once-added and twice-added maps is empty. -/
theorem c2_addSubscription_idempotent :
    ∀ (r t : String) (m : AnnMap), NodupKeys m → ',' ∉ r.data →
      addSubscription r t (addSubscription r t m) = addSubscription r t m
      ∧ annotationsPatch (addSubscription r t m)
          (addSubscription r t (addSubscription r t m)) = [] := by
  intro r t m hn hc
  have heq := add_add_eq_add r t m hc
  refine ⟨heq, ?_⟩
  rw [heq]
  exact annotationsPatch_self _ (nodupKeys_addSubscription r t m hn)

theorem c2_witness :
    addSubscription "b" "" (addSubscription "b" "" [(AnnotationKey, "a")])
      = addSubscription "b" "" [(AnnotationKey, "a")]
    ∧ annotationsPatch (addSubscription "b" "" [(AnnotationKey, "a")])
        (addSubscription "b" "" (addSubscription "b" "" [(AnnotationKey, "a")])) = [] :=
  c2_addSubscription_idempotent "b" "" [(AnnotationKey, "a")]
    (by rw [NodupKeys]; decide) (by decide)

/-- C4 helper: one addSubscription with a comma-free recipient preserves the
no-duplicate invariant. -/
theorem add_preserves_noDup (r t : String) (m : AnnMap) (hc : ',' ∉ r.data)
    (h : NoDupInvariant m) : NoDupInvariant (addSubscription r t m) := by
  intro k
  rw [addSubscription_eq]
  by_cases hmem : r ∈ ParseRecipients (lookupD m (subKeyFor t))
  · rw [if_pos hmem]
    exact h k
  · rw [if_neg hmem]
    by_cases hk : k = subKeyFor t
    · subst hk
      rw [lookupD, lookupKey_setKey_self]
      simp only [Option.getD_some]
      by_cases hdeg : ParseRecipients (lookupD m (subKeyFor t)) = [] ∧ r = ""
      · obtain ⟨he, hr⟩ := hdeg
        rw [he, hr]
        decide
      · rw [parse_append_one _ r hc hdeg]
        simp only [List.nodup_append, List.nodup_cons, List.nodup_nil]
        refine ⟨h (subKeyFor t), ⟨by simp, trivial⟩, ?_⟩
        intro a ha hb
        simp at hb
        rw [hb] at ha
        exact hmem ha
    · rw [lookupD, lookupKey_setKey_ne _ _ _ _ hk]
      exact h k

/-- C4 counterexample: the empty map satisfies the no-duplicate invariant,
yet a single addSubscription of the comma-carrying recipient "a,a" produces
a key whose decoded list contains "a" twice. -/
theorem c4_counterexample :
    NoDupInvariant [] ∧
      ¬ (ParseRecipients (lookupD (addSubscription "a,a" "" []) AnnotationKey)).Nodup := by
  constructor
  · intro k
    simp [lookupD, lookupKey, ParseRecipients]
  · decide

/-- C4 (amended): starting from a map in which no key's decoded recipient
list has duplicates, any finite sequence of addSubscription operations with
comma-free recipients preserves the invariant. -/
theorem c4_noDup_invariant :
    ∀ (ops : List (String × String)) (m : AnnMap),
      (∀ p ∈ ops, ',' ∉ p.1.data) → NoDupInvariant m →
      NoDupInvariant (ops.foldl (fun acc p => addSubscription p.1 p.2 acc) m) := by
  intro ops
  induction ops with
  | nil =>
    intro m _ h
    exact h
  | cons p ps ih =>
    intro m hc h
    rw [List.foldl_cons]
    exact ih _ (fun q hq => hc q (List.mem_cons_of_mem p hq))
      (add_preserves_noDup p.1 p.2 m (hc p (List.mem_cons_self p ps)) h)

theorem c4_witness :
    NoDupInvariant ([("a", ""), ("b", "t")].foldl
      (fun acc p => addSubscription p.1 p.2 acc) ([] : AnnMap)) :=
  c4_noDup_invariant [("a", ""), ("b", "t")] [] (by decide)
    (fun k => by simp [lookupD, lookupKey, ParseRecipients])

theorem lookupKey_stepRem_ne (r : String) (acc : AnnMap) (k k' : String) (h : k' ≠ k) :
    lookupKey k' (stepRem r acc k) = lookupKey k' acc := by
  simp only [stepRem]
  split
  · split
    · exact lookupKey_setKey_ne _ _ _ _ h
    · exact lookupKey_delKey_ne _ _ _ h
  · rfl

theorem lookupKey_foldl_stepRem_not_mem (r : String) (keys : List String) :
    ∀ (acc : AnnMap) (k : String), k ∉ keys →
      lookupKey k (keys.foldl (stepRem r) acc) = lookupKey k acc := by
  induction keys with
  | nil =>
    intro acc k _
    rfl
  | cons k1 ks ih =>
    intro acc k h
    rw [List.foldl_cons, ih _ k (fun hm => h (List.mem_cons_of_mem k1 hm))]
    exact lookupKey_stepRem_ne r acc k1 k (fun he => h (by rw [he]; exact List.mem_cons_self k1 ks))

theorem stepRem_deletes (r : String) (acc : AnnMap) (k : String)
    (hparse : ParseRecipients (lookupD acc k) = [r]) :
    lookupKey k (stepRem r acc k) = none := by
  have hidx : findStringIndex [r] r = 0 := by
    rw [findStringIndex, if_pos rfl]
  simp only [stepRem, hparse, hidx]
  rw [if_pos (by omega : (0 : Int) > -1)]
  have htake : ([r].take (0 : Int).toNat ++ [r].drop ((0 : Int).toNat + 1)) = [] := rfl
  rw [htake, if_neg (by simp)]
  exact lookupKey_delKey_self k acc

theorem fold_stepRem_none (r : String) (keys : List String) :
    ∀ (acc m : AnnMap) (k : String), keys.Nodup → k ∈ keys →
      lookupKey k acc = lookupKey k m →
      ParseRecipients (lookupD m k) = [r] →
      lookupKey k (keys.foldl (stepRem r) acc) = none := by
  induction keys with
  | nil =>
    intro acc m k _ hk
    simp at hk
  | cons k1 ks ih =>
    intro acc m k hnd hk hla hparse
    rw [List.foldl_cons]
    rcases List.mem_cons.mp hk with he | hm
    · have hd : ParseRecipients (lookupD acc k) = [r] := by
        rw [lookupD, hla]
        exact hparse
      have hnotin : k ∉ ks := by
        rw [he]
        exact (List.nodup_cons.mp hnd).1
      rw [← he, lookupKey_foldl_stepRem_not_mem r ks _ k hnotin]
      exact stepRem_deletes r acc k hd
    · have hne : k ≠ k1 := fun he => (List.nodup_cons.mp hnd).1 (he ▸ hm)
      exact ih (stepRem r acc k1) m k (List.nodup_cons.mp hnd).2 hm
        (by rw [lookupKey_stepRem_ne r acc k1 k hne, hla]) hparse

/-- C3: for every annotation map with distinct keys, recipient and trigger,
every matching annotation key whose decoded recipient list becomes empty
once removeSubscription drops the recipient's occurrence (the recipient is
present and removing it leaves no one) is absent from the returned map — in
particular it is not present with "" as its value. -/
theorem c3_removeSubscription_cleanup :
    ∀ (r t : String) (m : AnnMap), NodupKeys m →
      ∀ k ∈ GetAnnotationKeys m t,
        findStringIndex (ParseRecipients (lookupD m k)) r > -1 →
        (ParseRecipients (lookupD m k)).take
            (findStringIndex (ParseRecipients (lookupD m k)) r).toNat
          ++ (ParseRecipients (lookupD m k)).drop
              ((findStringIndex (ParseRecipients (lookupD m k)) r).toNat + 1) = [] →
        lookupKey k (removeSubscription r t m) = none := by
  intro r t m hn k hk hidx hemp
  have hparse : ParseRecipients (lookupD m k) = [r] := by
    rcases hex : ParseRecipients (lookupD m k) with _ | ⟨x, ex2⟩
    · rw [hex, findStringIndex] at hidx
      exfalso
      omega
    · rw [hex] at hidx hemp
      by_cases hx : x = r
      · have h0 : findStringIndex (x :: ex2) r = 0 := by
          rw [findStringIndex, if_pos hx]
        rw [h0] at hemp
        simp at hemp
        rw [hx, hemp]
      · rw [findStringIndex, if_neg hx] at hidx hemp
        by_cases hlt : findStringIndex ex2 r < 0
        · rw [if_pos hlt] at hidx
          exfalso
          omega
        · rw [if_neg hlt] at hemp
          have h1 : (findStringIndex ex2 r + 1).toNat = (findStringIndex ex2 r).toNat + 1 := by
            omega
          rw [h1] at hemp
          simp [List.take_succ_cons] at hemp
  have hndk : (GetAnnotationKeys (copyStringMap m) t).Nodup := by
    rw [GetAnnotationKeys]
    exact List.Nodup.filter _ hn
  rw [removeSubscription]
  exact fold_stepRem_none r _ (copyStringMap m) (copyStringMap m) k hndk hk rfl hparse

theorem c3_witness :
    lookupKey AnnotationKey (removeSubscription "x" "" [(AnnotationKey, "x")]) = none :=
  c3_removeSubscription_cleanup "x" "" [(AnnotationKey, "x")]
    (by rw [NodupKeys]; decide) AnnotationKey (by decide) (by decide) (by decide)

/-- C5: when both the application and the project name are empty,
updateSubscription fails with the missing-target error and issues no network
operation at all. -/
theorem c5_missing_target :
    ∀ (w : World) (r : String) (sub : Bool) (t : String),
      updateSubscription w r sub ⟨"", "", t⟩
        = (.error "either application or project name must be specified", []) := by
  intro w r sub t
  rfl

/-- C6: whenever target selection and the fetch succeed and the diff between
the pre-fetch snapshot and the mutated annotations is empty,
updateSubscription returns success having issued only the get — no patch
write reaches the collection, so the remote state is untouched. -/
theorem c6_empty_diff_no_write :
    ∀ (w : World) (r : String) (sub : Bool) (opts : UpdateSubscription)
      (tgt : TargetKind) (name : String) (obj : Obj),
      selectTarget opts = .ok (tgt, name) →
      doGet w tgt name = .ok obj →
      annotationsPatch obj.anns
        (if sub then addSubscription r opts.Trigger obj.anns
         else removeSubscription r opts.Trigger obj.anns) = [] →
      updateSubscription w r sub opts = (.ok "subscription updated", [getOp tgt name]) := by
  intro w r sub opts tgt name obj hsel hget hdiff
  simp only [updateSubscription, hsel, hget, copyStringMap, hdiff]
  rfl

theorem c6_witness :
    updateSubscription wNoop "r" true ⟨"a", "", ""⟩
      = (.ok "subscription updated", [getOp TargetKind.app "a"]) :=
  c6_empty_diff_no_write wNoop "r" true ⟨"a", "", ""⟩ TargetKind.app "a"
    ⟨"a", "ns", [(AnnotationKey, "r")]⟩ rfl rfl (by decide)

/-- C7: addSubscription touches no key other than the derived one — the
fixed base key when the trigger is empty, else the trigger, a dot, then the
base key — and at that key it performs the append-if-absent update. -/
theorem c7_annotation_key_derivation :
    ∀ (r t : String) (m : AnnMap),
      (∀ k, k ≠ subKeyFor t → lookupKey k (addSubscription r t m) = lookupKey k m)
      ∧ lookupKey (subKeyFor t) (addSubscription r t m)
          = (if r ∈ ParseRecipients (lookupD m (subKeyFor t))
             then lookupKey (subKeyFor t) m
             else some (joinComma (ParseRecipients (lookupD m (subKeyFor t)) ++ [r])))
      ∧ subKeyFor t = (if t = "" then AnnotationKey else t ++ "." ++ AnnotationKey) := by
  intro r t m
  refine ⟨?_, ?_, rfl⟩
  · intro k hk
    rw [addSubscription_eq]
    by_cases hmem : r ∈ ParseRecipients (lookupD m (subKeyFor t))
    · rw [if_pos hmem]
    · rw [if_neg hmem]
      exact lookupKey_setKey_ne _ _ _ _ hk
  · rw [addSubscription_eq]
    by_cases hmem : r ∈ ParseRecipients (lookupD m (subKeyFor t))
    · rw [if_pos hmem, if_pos hmem]
    · rw [if_neg hmem, if_neg hmem]
      exact lookupKey_setKey_self _ _ _

theorem c7_witness :
    lookupKey "other" (addSubscription "r" "x" []) = lookupKey "other" ([] : AnnMap) :=
  (c7_annotation_key_derivation "r" "x" []).1 "other" (by decide)

/-- C9: execute dispatches exactly one operation, with the fixed priority
list-subscriptions over subscribe over unsubscribe; only when none of the
three variants is set does it fail with the unknown-command error. -/
theorem c9_execute_dispatch :
    ∀ (w : World) (cmd : Command),
      ((cmd.ListSubscriptions).isSome →
        execute w cmd = listSubscriptions w cmd.Recipient)
      ∧ (cmd.ListSubscriptions = none → ∀ u, cmd.Subscribe = some u →
          execute w cmd = updateSubscription w cmd.Recipient true u)
      ∧ (cmd.ListSubscriptions = none → cmd.Subscribe = none →
          ∀ u, cmd.Unsubscribe = some u →
          execute w cmd = updateSubscription w cmd.Recipient false u)
      ∧ (cmd.ListSubscriptions = none → cmd.Subscribe = none →
          cmd.Unsubscribe = none → execute w cmd = (.error "unknown command", [])) := by
  intro w cmd
  refine ⟨?_, ?_, ?_, ?_⟩
  · intro h
    obtain ⟨x, hl⟩ := Option.isSome_iff_exists.mp h
    rw [execute, hl]
  · intro hl u hs
    rw [execute, hl, hs]
  · intro hl hs u hu
    rw [execute, hl, hs, hu]
  · intro hl hs hu
    rw [execute, hl, hs, hu]

theorem c9_witness :
    execute wNoop ⟨some (), some ⟨"a", "", ""⟩, some ⟨"a", "", ""⟩, "slack:ops"⟩
        = listSubscriptions wNoop "slack:ops"
    ∧ execute wNoop ⟨none, none, none, "r"⟩ = (.error "unknown command", []) :=
  ⟨(c9_execute_dispatch wNoop ⟨some (), some ⟨"a", "", ""⟩, some ⟨"a", "", ""⟩,
      "slack:ops"⟩).1 (by decide),
   (c9_execute_dispatch wNoop ⟨none, none, none, "r"⟩).2.2.2 rfl rfl rfl⟩

theorem updateSubscription_trace (w : World) (r : String) (sub : Bool)
    (opts : UpdateSubscription) (tgt : TargetKind) (name : String)
    (hsel : selectTarget opts = .ok (tgt, name)) :
    (updateSubscription w r sub opts).2 = [getOp tgt name]
    ∨ ∃ p, (updateSubscription w r sub opts).2 = [getOp tgt name, patchOp tgt name p] := by
  simp only [updateSubscription, hsel, copyStringMap]
  split
  · left
    rfl
  · split
    · split
      · split
        · right
          exact ⟨_, rfl⟩
        · right
          exact ⟨_, rfl⟩
      · left
        rfl
    · split
      · split
        · right
          exact ⟨_, rfl⟩
        · right
          exact ⟨_, rfl⟩
      · left
        rfl

/-- C10: when both the application and the project name are non-empty, the
applications collection is selected with the application name (no
missing-target error), the trace begins with that get, and every operation
in the trace targets the applications collection with that name — the
project collection is never touched. -/
theorem c10_app_priority :
    ∀ (w : World) (r : String) (sub : Bool) (opts : UpdateSubscription),
      opts.App ≠ "" → opts.Project ≠ "" →
      selectTarget opts = .ok (.app, opts.App)
      ∧ (updateSubscription w r sub opts).2.head? = some (NetOp.getApp opts.App)
      ∧ ∀ op ∈ (updateSubscription w r sub opts).2,
          op = NetOp.getApp opts.App ∨ ∃ p, op = NetOp.patchApp opts.App p := by
  intro w r sub opts hApp _
  have hsel : selectTarget opts = .ok (.app, opts.App) := by
    rw [selectTarget, if_pos hApp]
  refine ⟨hsel, ?_, ?_⟩
  · rcases updateSubscription_trace w r sub opts .app opts.App hsel with h | ⟨p, h⟩
    · rw [h]
      rfl
    · rw [h]
      rfl
  · intro op hop
    rcases updateSubscription_trace w r sub opts .app opts.App hsel with h | ⟨p, h⟩
    · rw [h] at hop
      simp at hop
      left
      rw [hop]
      rfl
    · rw [h] at hop
      simp at hop
      rcases hop with hop | hop
      · left
        rw [hop]
        rfl
      · right
        exact ⟨p, by rw [hop]; rfl⟩

theorem c10_witness :
    selectTarget ⟨"a", "p", ""⟩ = .ok (TargetKind.app, "a")
    ∧ (updateSubscription wNoop "r" true ⟨"a", "p", ""⟩).2.head?
        = some (NetOp.getApp "a")
    ∧ ∀ op ∈ (updateSubscription wNoop "r" true ⟨"a", "p", ""⟩).2,
        op = NetOp.getApp "a" ∨ ∃ p, op = NetOp.patchApp "a" p :=
  c10_app_priority wNoop "r" true ⟨"a", "p", ""⟩ (by decide) (by decide)

theorem scanMatching_ok (dest : Destination) (l : List Obj)
    (h : ∀ o ∈ l, ∃ ds, GetDestinations o.anns = .ok ds) :
    ∃ res, scanMatching dest l = .ok res := by
  induction l with
  | nil => exact ⟨[], rfl⟩
  | cons o rest ih =>
    obtain ⟨ds, hds⟩ := h o (List.mem_cons_self o rest)
    obtain ⟨res, hres⟩ := ih (fun o2 ho2 => h o2 (List.mem_cons_of_mem o ho2))
    rw [scanMatching, hds, hres]
    show ∃ res2, (if dest ∈ ds then Except.ok ((o.ns ++ "/" ++ o.name) :: res)
      else Except.ok res) = Except.ok res2
    by_cases hm : dest ∈ ds
    · rw [if_pos hm]
      exact ⟨_, rfl⟩
    · rw [if_neg hm]
      exact ⟨_, rfl⟩

theorem scanMatching_error (dest : Destination) (l1 : List Obj) (bad : Obj)
    (l2 : List Obj) (e : String)
    (h1 : ∀ o ∈ l1, ∃ ds, GetDestinations o.anns = .ok ds)
    (hbad : GetDestinations bad.anns = .error e) :
    scanMatching dest (l1 ++ bad :: l2) = .error e := by
  induction l1 with
  | nil =>
    rw [List.nil_append, scanMatching, hbad]
  | cons o rest ih =>
    obtain ⟨ds, hds⟩ := h1 o (List.mem_cons_self o rest)
    rw [List.cons_append, scanMatching, hds,
      ih (fun o2 ho2 => h1 o2 (List.mem_cons_of_mem o ho2))]

/-- C8: once the recipient itself parses, a destination-parse failure on any
single scanned resource — in the applications list, or in the projects list
after all applications scanned cleanly — makes listSubscriptions return that
error, producing no result text: the failure aborts the whole scan. -/
theorem c8_list_aborts_on_parse_error :
    ∀ (w : World) (r : String) (dest : Destination) (tmpl : String),
      ParseDestinationAndTemplate r = .ok (dest, tmpl) →
      ((∀ (l1 : List Obj) (bad : Obj) (l2 : List Obj) (e : String),
          w.listApps = .ok (l1 ++ bad :: l2) →
          (∀ o ∈ l1, ∃ ds, GetDestinations o.anns = .ok ds) →
          GetDestinations bad.anns = .error e →
          listSubscriptions w r = (.error e, [NetOp.listApps]))
       ∧ (∀ (apps l1 : List Obj) (bad : Obj) (l2 : List Obj) (e : String),
          w.listApps = .ok apps →
          (∀ o ∈ apps, ∃ ds, GetDestinations o.anns = .ok ds) →
          w.listProjs = .ok (l1 ++ bad :: l2) →
          (∀ o ∈ l1, ∃ ds, GetDestinations o.anns = .ok ds) →
          GetDestinations bad.anns = .error e →
          listSubscriptions w r = (.error e, [NetOp.listApps, NetOp.listProjs]))) := by
  intro w r dest tmpl hparse
  constructor
  · intro l1 bad l2 e hla hok hbad
    simp only [listSubscriptions, hparse, hla,
      scanMatching_error dest l1 bad l2 e hok hbad]
  · intro apps l1 bad l2 e hla hok hlp hok2 hbad
    obtain ⟨res, hres⟩ := scanMatching_ok dest apps hok
    simp only [listSubscriptions, hparse, hla, hres, hlp,
      scanMatching_error dest l1 bad l2 e hok2 hbad]

theorem c8_witness :
    listSubscriptions wBad "slack:ops"
      = (.error ("bad" ++ " is not a valid recipient"), [NetOp.listApps]) :=
  (c8_list_aborts_on_parse_error wBad "slack:ops" ⟨"slack", "ops"⟩ "" rfl).1
    [] ⟨"a", "ns", [(AnnotationKey, "bad")]⟩ [] ("bad" ++ " is not a valid recipient")
    rfl (by simp) rfl
